import Mathlib

/-!
Shallow embedding of the `hophop` DECT-2020 NR MAC codec and PHY driver.

Bytes are modelled as `Nat` values; every function embedding a Rust
function over `u8` data is faithful on inputs `< 256` (and the bit
operations `>>>`, `&&&`, `|||` agree with the `u8` ones there).  Fallible
Rust functions returning `Result<_, InputLengthError>` or
`Result<_, ParsingError>` are modelled with `Option` (both error types are
field-less unit structs in the source).  Rust panics inside otherwise
total functions (`expect`, `unreachable!`) are also modelled as `none`
where they occur in a fallible context, with theorems showing the guarded
conversions are in fact total on masked inputs.
-/

namespace Hophop

/-! ## ts-103-636-numbers: constant tables (`mac_pdu.rs`, `mac_ie.rs`) -/

namespace mac_pdu

/-- Version field of the MAC Header type; the standard only allows 0. -/
def VERSION : Nat := 0

/- Values of the MAC Header Type field, Table 6.3.2-2. -/
namespace header_type

def DATA_MAC_PDU : Nat := 0x0
def BEACON : Nat := 0x1
def UNICAST : Nat := 0x2
def RD_BROADCAST : Nat := 0x3
def ESCAPE : Nat := 0xf

end header_type

/- Values of the MAC Extension field, Table 6.3.4-1. -/
namespace mux_ext

def NO_LENGTH_FIELD : Nat := 0b00
def LENGTH_8BIT : Nat := 0b01
def LENGTH_16BIT : Nat := 0b10
def SHORT_IE : Nat := 0b11

end mux_ext

end mac_pdu

namespace mac_ie

/-- An IE type as used with MAC Extension field encodings 00/01/10.

In the source this is a newtype over `u8` whose invariant is that only the
lowest 6 bits are set (`value & !0x3f == 0` for a `u8` is `value < 64`);
the invariant is carried here as a proof field. -/
structure IEType6bit where
  val : Nat
  isMasked : val < 64
deriving DecidableEq

/-- `IEType6bit::try_from(u8)`: succeeds iff the two top bits are clear. -/
def IEType6bit.tryFrom (value : Nat) : Option IEType6bit :=
  if h : value < 64 then some ⟨value, h⟩ else none

/-- An IE type as used with MAC Extension field encoding 11 ("Short IE");
the low 6 bits combine a 1-bit length and a 5-bit value. -/
structure IEType5bit where
  composite0 : Nat
  isMasked : composite0 < 64
deriving DecidableEq

namespace IEType5bit

/-- `IEType5bit::len()`: the length of the IE (0 or 1). -/
def len (t : IEType5bit) : Nat := t.composite0 >>> 5

/-- `IEType5bit::value()`: the numeric value of the IE (5 bit). -/
def value (t : IEType5bit) : Nat := t.composite0 &&& 0x1f

/-- `IEType5bit::composite()`: the combined length-and-value bits. -/
def composite (t : IEType5bit) : Nat := t.composite0

/-- `IEType5bit::try_from_composite`: errs if input exceeds the 6 lowest
bits (`composite & !0x3f == 0` for a `u8` is `composite < 64`). -/
def tryFromComposite (c : Nat) : Option IEType5bit :=
  if h : c < 64 then some ⟨c, h⟩ else none

end IEType5bit

end mac_ie

/-! ## Slice-cursor primitives

Rust's `<&[u8]>::split_off_first` and `split_off(..n)` advance a slice
cursor; on a list they return the extracted front plus the remainder. -/

/-- `slice.split_off_first()`: first element and the advanced remainder. -/
def splitOffFirst : List Nat → Option (Nat × List Nat)
  | [] => none
  | x :: xs => some (x, xs)

/-- `slice.split_off(..n)`: the first `n` elements and the advanced
remainder; `none` when fewer than `n` elements are available. -/
def splitOff (n : Nat) (l : List Nat) : Option (List Nat × List Nat) :=
  if n ≤ l.length then some (l.take n, l.drop n) else none

/-! ## ts-103-636-utils `mac_ie.rs`: the Information Element codec -/

namespace mac_ie

/-- A single IE of the MAC layer: the first byte (`head`) plus the payload
bytes (which on the wire follow the head directly or after 1-2 length
bytes, depending on the head). -/
structure InformationElement where
  head : Nat
  payload : List Nat
deriving DecidableEq

/-- Unifying type over the 6-bit and 5-bit IE registries. -/
inductive AnyIeType where
  | Type6bit (t : IEType6bit)
  | Type5bit (t : IEType5bit)
deriving DecidableEq

namespace InformationElement

/-- `InformationElement::new_6bit_with_length`: errs (`InputLengthError`)
if the payload cannot be expressed in a 16-bit length; picks the 8-bit
length form when the length fits a `u8`, else the 16-bit form. -/
def new_6bit_with_length (type_ : IEType6bit) (payload : List Nat) :
    Option InformationElement :=
  if payload.length > 65535 then
    none
  else
    let head :=
      if payload.length ≤ 255 then
        type_.val ||| (mac_pdu.mux_ext.LENGTH_8BIT <<< 6)
      else
        type_.val ||| (mac_pdu.mux_ext.LENGTH_16BIT <<< 6)
    some { head := head, payload := payload }

/-- `InformationElement::new_5bit`: errs (`InputLengthError`) if the
payload length does not match the length bit embedded in the type. -/
def new_5bit (type_ : IEType5bit) (payload : List Nat) :
    Option InformationElement :=
  if payload.length ≠ type_.len then
    none
  else
    some { head := type_.composite ||| (mac_pdu.mux_ext.SHORT_IE <<< 6),
           payload := payload }

/-- `InformationElement::parse`: reads one IE off the front of a MAC IE
stream, returning the element and the advanced remainder.

The `NO_LENGTH_FIELD` arm runs `IEType6bit::try_from(head & 0x3f)` (whose
`expect` cannot fire, see `ieType6bit_tryFrom_masked_total`) and then
always fails with `ParsingError` because the per-type length table is a
`None` placeholder in the source.  The final wildcard arm of the `match`
on `head >> 6` is `unreachable!` in the source (a `u8` shifted right by 6
is below 4); it is modelled as `none` and never hit on byte-valued heads.

The length computation (`let len: u16 = match mac_ext { ... }`) is
factored out as `parseLength`; `parse` itself glues it between the head
read and the payload extraction exactly as the source does. -/
def parseLength (head : Nat) (data : List Nat) : Option (Nat × List Nat) :=
  if head >>> 6 = mac_pdu.mux_ext.NO_LENGTH_FIELD then
    match IEType6bit.tryFrom (head &&& 0x3f) with
    | some _ie_type =>
      -- `let len: Option<u16> = None; len.ok_or(ParsingError)?`
      none
    | none => none
  else if head >>> 6 = mac_pdu.mux_ext.LENGTH_8BIT then
    splitOffFirst data
  else if head >>> 6 = mac_pdu.mux_ext.LENGTH_16BIT then
    match splitOffFirst data with
    | none => none
    | some (high, data) =>
      match splitOffFirst data with
      | none => none
      | some (low, data) => some ((high <<< 8) ||| low, data)
  else if head >>> 6 = mac_pdu.mux_ext.SHORT_IE then
    some ((head >>> 5) &&& 1, data)
  else
    none

def parse (data : List Nat) : Option (InformationElement × List Nat) := do
  let (head, data) ← splitOffFirst data
  let (len, data) ← parseLength head data
  let (payload, data) ← splitOff len data
  pure ({ head := head, payload := payload }, data)

/-- `InformationElement::ie_number`: the IE registry entry encoded in the
head.  The two `expect`s of the source are modelled as `none`; they can
never fire because the argument is masked to the low 6 bits. -/
def ie_number (ie : InformationElement) : Option AnyIeType :=
  let low_6_bits := ie.head &&& 0x3f
  if ie.head >>> 6 = mac_pdu.mux_ext.SHORT_IE then
    (IEType5bit.tryFromComposite low_6_bits).map AnyIeType.Type5bit
  else
    (IEType6bit.tryFrom low_6_bits).map AnyIeType.Type6bit

/-- `InformationElement::serialize` into an infallible writer: the head,
then the length field of the width the head's MAC-ext bits select (no
length bytes for encodings 00 and 11), then the payload.  The two
`expect`s (payload length mismatching the header's length form) are
modelled as `none`. -/
def serialize (ie : InformationElement) : Option (List Nat) :=
  let lengthField : Option (List Nat) :=
    if ie.head >>> 6 = mac_pdu.mux_ext.LENGTH_8BIT then
      if ie.payload.length ≤ 255 then some [ie.payload.length] else none
    else if ie.head >>> 6 = mac_pdu.mux_ext.LENGTH_16BIT then
      -- `u16::to_be_bytes`
      if ie.payload.length ≤ 65535 then
        some [ie.payload.length >>> 8, ie.payload.length &&& 0xff]
      else none
    else
      some []
  lengthField.map fun lf => ie.head :: (lf ++ ie.payload)

end InformationElement

end mac_ie

/-! ## ts-103-636-utils `mac_pdu.rs`: the MAC PDU header codec -/

namespace mac_pdu

/-- The MAC header leading octet, Section 6.3.2. -/
structure MacHeaderType where
  raw : Nat
deriving DecidableEq

/-- The 2-bit Version field. -/
def MacHeaderType.version (h : MacHeaderType) : Nat := h.raw >>> 6

/-- The 2-bit MAC Security field. -/
def MacHeaderType.mac_security (h : MacHeaderType) : Nat :=
  (h.raw >>> 4) &&& 0x03

/-- The 4-bit MAC Header Type field. -/
def MacHeaderType.mac_header_type (h : MacHeaderType) : Nat :=
  h.raw &&& 0x0f

/-- The four fixed-width common subheaders, carrying their borrowed bytes
(2, 7, 10 and 6 bytes respectively in the source's array references). -/
inductive MacCommonHeader where
  | DataMacPdu (bytes : List Nat)
  | Beacon (bytes : List Nat)
  | Unicast (bytes : List Nat)
  | RdBroadcast (bytes : List Nat)
deriving DecidableEq

/-- The subheader bytes carried by a `MacCommonHeader` variant. -/
def MacCommonHeader.bytes : MacCommonHeader → List Nat
  | .DataMacPdu b => b
  | .Beacon b => b
  | .Unicast b => b
  | .RdBroadcast b => b

/-- The numeric MAC Header Type value a `MacCommonHeader` variant was
parsed from. -/
def MacCommonHeader.headerTypeValue : MacCommonHeader → Nat
  | .DataMacPdu _ => header_type.DATA_MAC_PDU
  | .Beacon _ => header_type.BEACON
  | .Unicast _ => header_type.UNICAST
  | .RdBroadcast _ => header_type.RD_BROADCAST

/-- A parsed MAC PDU: leading octet, common subheader, and the IE tail. -/
structure Header where
  head : MacHeaderType
  common : MacCommonHeader
  tail : List Nat
deriving DecidableEq

/-- `Header::parse`: removes the first byte as `MacHeaderType`, rejects a
nonzero version, consumes the fixed-width common subheader the low 4 bits
select (any other value, including `0xf` ESCAPE, is a `ParsingError`),
and keeps the unconsumed remainder as the IE tail. -/
def Header.parse (buffer : List Nat) : Option Header := do
  let (head, buffer) ← splitOffFirst buffer
  let head := MacHeaderType.mk head
  if head.version ≠ VERSION then
    none
  else
    let (common, buffer) ←
      if head.mac_header_type = header_type.DATA_MAC_PDU then
        (splitOff 2 buffer).map fun (sub, rest) =>
          (MacCommonHeader.DataMacPdu sub, rest)
      else if head.mac_header_type = header_type.BEACON then
        (splitOff 7 buffer).map fun (sub, rest) =>
          (MacCommonHeader.Beacon sub, rest)
      else if head.mac_header_type = header_type.UNICAST then
        (splitOff 10 buffer).map fun (sub, rest) =>
          (MacCommonHeader.Unicast sub, rest)
      else if head.mac_header_type = header_type.RD_BROADCAST then
        (splitOff 6 buffer).map fun (sub, rest) =>
          (MacCommonHeader.RdBroadcast sub, rest)
      else
        none
    pure { head := head, common := common, tail := buffer }

end mac_pdu

/-! ## hophop `nrfxlib_phy`: the PHY session driver (`rx.rs`, `mod.rs`)

The driver is asynchronous: `rx()` issues a modem request and then drains
the process-wide event queue until a `Completed` event.  The embedding
takes the sequence of `DectEvent`s the one `rx()` call consumes (in queue
order) as an explicit list; panics (`panic!`/`debug_assert!` sequence
violations) become the distinguished `fatal` outcome, and running out of
events models the call still suspended (`incomplete`). -/

namespace nrfxlib_phy

/-- `rx::PccError` (nrfxlib_phy/rx.rs). -/
inductive PccError where
  | CrcError
  | UnexpectedEventDetails
deriving DecidableEq

/-- `rx::PdcError` (nrfxlib_phy/rx.rs). -/
inductive PdcError where
  | CrcError
  | OutOfSpace
  | NotReceived
  | PccError (e : PccError)
deriving DecidableEq

instance exceptDecEq {ε α : Type} [DecidableEq ε] [DecidableEq α] :
    DecidableEq (Except ε α) := fun x y =>
  match x, y with
  | .error a, .error b =>
    if h : a = b then .isTrue (by rw [h])
    else .isFalse (by intro hc; cases hc; exact h rfl)
  | .ok a, .ok b =>
    if h : a = b then .isTrue (by rw [h])
    else .isFalse (by intro hc; cases hc; exact h rfl)
  | .error _, .ok _ => .isFalse (by intro hc; cases hc)
  | .ok _, .error _ => .isFalse (by intro hc; cases hc)

/-- `PhyResult = Result<(), PhyErr>` with `PhyErr` a `NonZeroU16`. -/
abbrev PhyResult := Except Nat Unit

/-- `DectEvent` (nrfxlib_phy/mod.rs), the tagged variants the ISR queues. -/
inductive DectEvent where
  | Init
  | Activate
  | Configure
  | TimeGet
  | LatencyGet
  | Completed (r : PhyResult)
  | PccError (e : PccError)
  | Pcc (start_time : Nat) (pcc_len : Nat)
  | PdcError
  | Pdc (len : Nat)
  | Rssi (start_time : Nat) (range : Option (Nat × Nat))
deriving DecidableEq

/-- `rx::RecvOk`: the index set of a receive that saw a PCC. -/
structure RecvOk where
  pcc_time : Nat
  pcc_len : Nat
  pdc_len : Except PdcError Nat
deriving DecidableEq

/-- Outcome of one `rx()` call over its consumed event list. -/
inductive RxOutcome where
  /-- `Ok(None)`: silence for the whole listen window. -/
  | silence
  /-- `Ok(Some(RecvResult { indices, .. }))`. -/
  | received (indices : Except PccError RecvOk)
  /-- `Err(MixedError::Phy(e))` from `Completed(Err(e))`. -/
  | phyError (e : Nat)
  /-- `panic!("Sequence violation")` / failed `debug_assert!`. -/
  | fatal
  /-- The event list ran out before `Completed`: still awaiting. -/
  | incomplete
deriving DecidableEq

/-- The `match (pcc, pdc)` result assembly at the end of `DectPhy::rx`
(rx.rs lines 123-137), applied to the collected options. -/
def rxAssemble (pcc : Option (Except PccError (Nat × Nat)))
    (pdc : Option (Except PdcError Nat)) : RxOutcome :=
  match pcc, pdc with
  | none, none => .silence
  | some (.error e), none => .received (.error e)
  | some (.ok (pcc_time, pcc_len)), none =>
    .received (.ok { pcc_time := pcc_time, pcc_len := pcc_len,
                     pdc_len := .error .NotReceived })
  | some (.ok (pcc_time, pcc_len)), some pdc_len =>
    .received (.ok { pcc_time := pcc_time, pcc_len := pcc_len,
                     pdc_len := pdc_len })
  | _, _ => .fatal

/-- The event-draining loop of `DectPhy::rx` (rx.rs lines 97-121) plus
the final assembly: collects at most one PCC outcome and at most one PDC
outcome (a duplicate fails the `debug_assert!`, i.e. is fatal), breaks on
`Completed(Ok)` into `rxAssemble`, returns the error of `Completed(Err)`,
and treats every other event as a sequence violation. -/
def rxLoop (events : List DectEvent)
    (pcc : Option (Except PccError (Nat × Nat)))
    (pdc : Option (Except PdcError Nat)) : RxOutcome :=
  match events with
  | [] => .incomplete
  | e :: events =>
    match e with
    | .Pcc start len =>
      if pcc.isSome then .fatal
      else rxLoop events (some (.ok (start, len))) pdc
    | .PccError err =>
      if pcc.isSome then .fatal
      else rxLoop events (some (.error err)) pdc
    | .Pdc len =>
      if pdc.isSome then .fatal
      else rxLoop events pcc (some (.ok len))
    | .PdcError =>
      if pdc.isSome then .fatal
      else rxLoop events pcc (some (.error .CrcError))
    | .Completed (.ok _) => rxAssemble pcc pdc
    | .Completed (.error err) => .phyError err
    | _ => .fatal

/-- One whole `rx()` call as a function of the events it consumes. -/
def rx (events : List DectEvent) : RxOutcome := rxLoop events none none

/-- `MixedError` (nrfxlib_phy/error.rs), restricted to what `tx`'s input
validation can produce before/instead of the modem transmit request. -/
inductive TxOutcome where
  /-- `panic!("Not a valid header length")`. -/
  | fatal
  /-- `return Err(MixedError::UsageError)` before the modem call. -/
  | usageError
  /-- The validation passed: `nrf_modem_dect_phy_tx` is issued with the
  given `phy_type`. -/
  | modemRequest (phy_type : Nat)
deriving DecidableEq

/-- The input-validation prologue of `DectPhy::tx` (mod.rs lines
364-413): the PCC length picks `phy_type` (5 bytes → 0, 10 bytes → 1,
anything else panics), then a zero `network_id` is rejected as a usage
error before the modem transmit request is issued. -/
def txValidate (_start_time : Nat) (_channel : Nat) (network_id : Nat)
    (pcc : List Nat) (_pdc : List Nat) : TxOutcome :=
  let phy_type : Option Nat :=
    if pcc.length = 5 then some 0
    else if pcc.length = 10 then some 1
    else none
  match phy_type with
  | none => .fatal
  | some pt =>
    if network_id = 0 then .usageError
    else .modemRequest pt

end nrfxlib_phy

/-! ## The IE stream iterator

`parse_stream` recurses on the remainder returned by `parse`; its
termination needs the cursor-advance lemmas, so it lives after all other
definitions. -/

namespace mac_ie.InformationElement

/-- `parseLength` only ever advances the cursor. -/
theorem parseLength_rest_length_le (head : Nat) (data : List Nat)
    (len : Nat) (rest : List Nat)
    (h : parseLength head data = some (len, rest)) :
    rest.length ≤ data.length := by
  unfold parseLength at h
  split_ifs at h
  · -- NO_LENGTH_FIELD: both match arms are `none`
    rcases htf : IEType6bit.tryFrom (head &&& 0x3f) with _ | t <;>
      rw [htf] at h <;> exact Option.noConfusion h
  · -- LENGTH_8BIT
    rcases data with _ | ⟨b, d⟩
    · simp [splitOffFirst] at h
    · simp only [splitOffFirst, Option.some.injEq, Prod.mk.injEq] at h
      obtain ⟨-, rfl⟩ := h
      simp only [List.length_cons]; omega
  · -- LENGTH_16BIT
    rcases data with _ | ⟨b, d⟩
    · simp [splitOffFirst] at h
    · rcases d with _ | ⟨b2, d2⟩
      · simp [splitOffFirst] at h
      · simp only [splitOffFirst, Option.some.injEq, Prod.mk.injEq] at h
        obtain ⟨-, rfl⟩ := h
        simp only [List.length_cons]; omega
  · -- SHORT_IE
    simp only [Option.some.injEq, Prod.mk.injEq] at h
    obtain ⟨-, rfl⟩ := h
    exact Nat.le_refl _

/-- Each successful `parse` consumes at least the head byte. -/
theorem parse_rest_length_lt (data : List Nat) (ie : InformationElement)
    (rest : List Nat) (h : parse data = some (ie, rest)) :
    rest.length < data.length := by
  unfold parse at h
  rcases data with _ | ⟨head, d1⟩
  · simp [splitOffFirst] at h
  · simp only [splitOffFirst, Option.bind_eq_bind, Option.some_bind,
      Option.bind_eq_some, Option.pure_def, Option.some.injEq, Prod.mk.injEq] at h
    obtain ⟨⟨len, d2⟩, h1, ⟨⟨payload, d3⟩, h2, h3, h4⟩⟩ := h
    have hle := parseLength_rest_length_le head d1 len d2 h1
    unfold splitOff at h2
    split at h2
    · simp only [Option.some.injEq, Prod.mk.injEq] at h2
      rw [← h4, ← h2.2]
      simp only [List.length_drop, List.length_cons]
      omega
    · exact Option.noConfusion h2

/-- `InformationElement::parse_stream`: the lazy sequence of parse
results, modelled as the (finite) list of items the Rust iterator yields.
Mirroring the `core::iter::from_fn` closure: an empty remainder yields
nothing; a successful `parse` yields `Except.ok` and continues on the
advanced remainder; a failed `parse` clears the remainder and yields a
final `Except.error` (the unit `ParsingError`). -/
def parse_stream (data : List Nat) :
    List (Except Unit InformationElement) :=
  if hd : data = [] then
    []
  else
    match hp : parse data with
    | some (item, rest) =>
      Except.ok item :: parse_stream rest
    | none => [Except.error ()]
termination_by data.length
decreasing_by exact parse_rest_length_lt data _ _ hp

end mac_ie.InformationElement

/-! ## Bit-level helper lemmas -/

theorem LENGTH_8BIT_shift6 : mac_pdu.mux_ext.LENGTH_8BIT <<< 6 = 64 := rfl

theorem LENGTH_16BIT_shift6 : mac_pdu.mux_ext.LENGTH_16BIT <<< 6 = 128 := rfl

theorem SHORT_IE_shift6 : mac_pdu.mux_ext.SHORT_IE <<< 6 = 192 := rfl

/-- Setting the MAC-ext bits to 01 on a 6-bit value. -/
theorem or_head_8bit : ∀ v, v < 64 →
    (v ||| 64) >>> 6 = 1 ∧ (v ||| 64) &&& 63 = v ∧ v ||| 64 < 256 := by
  decide

/-- Setting the MAC-ext bits to 10 on a 6-bit value. -/
theorem or_head_16bit : ∀ v, v < 64 →
    (v ||| 128) >>> 6 = 2 ∧ (v ||| 128) &&& 63 = v ∧ v ||| 128 < 256 := by
  decide

/-- Setting the MAC-ext bits to 11 on a 6-bit composite value. -/
theorem or_head_short : ∀ v, v < 64 →
    (v ||| 192) >>> 6 = 3 ∧ (v ||| 192) &&& 63 = v ∧
    ((v ||| 192) >>> 5) &&& 1 = v >>> 5 ∧ v ||| 192 < 256 := by
  decide

/-- Reading back a big-endian `u16` written as high and low bytes. -/
theorem be16_recombine (L : Nat) : ((L >>> 8) <<< 8) ||| (L &&& 255) = L := by
  have h1 : L &&& 255 = L % 256 := by
    have h := Nat.and_pow_two_sub_one_eq_mod L 8
    norm_num at h
    exact h
  have h2 : (L >>> 8) <<< 8 = 2 ^ 8 * (L >>> 8) := by
    rw [Nat.shiftLeft_eq]; ring
  have h3 : L % 256 < 2 ^ 8 := by
    norm_num
    omega
  rw [h1, h2, ← Nat.mul_add_lt_is_or h3 (L >>> 8), Nat.shiftRight_eq_div_pow]
  norm_num
  omega

/-- Taking apart the big-endian `u16` formed from two bytes. -/
theorem be16_split : ∀ hi, hi < 256 → ∀ lo, lo < 256 →
    ((hi <<< 8) ||| lo) >>> 8 = hi ∧ ((hi <<< 8) ||| lo) &&& 255 = lo ∧
    (hi <<< 8) ||| lo ≤ 65535 := by
  intro hi hhi lo hlo
  have hlo2 : lo < 2 ^ 8 := by norm_num; omega
  have key : (hi <<< 8) ||| lo = 256 * hi + lo := by
    have h := Nat.mul_add_lt_is_or hlo2 hi
    rw [Nat.shiftLeft_eq, Nat.mul_comm]
    norm_num at h
    exact h.symm
  refine ⟨?_, ?_, ?_⟩
  · rw [key, Nat.shiftRight_eq_div_pow]
    norm_num
    omega
  · have h := Nat.and_pow_two_sub_one_eq_mod ((hi <<< 8) ||| lo) 8
    norm_num at h
    rw [h, key]
    omega
  · rw [key]; omega

/-! ## Claim theorems -/

namespace mac_ie.InformationElement

/-- Claim C6: for every 6-bit IE type `t` and payload `p`,
`new_6bit_with_length(t, p)` returns `Ok` if and only if
`p.len() <= 65535`; on success the head's top two bits encode the 8-bit
length form (01) when `p.len() <= 255` and the 16-bit form (10)
otherwise. -/
theorem new_6bit_with_length_spec :
    ∀ (t : IEType6bit) (p : List Nat),
      ((new_6bit_with_length t p).isSome ↔ p.length ≤ 65535) ∧
      (∀ ie, new_6bit_with_length t p = some ie →
        (p.length ≤ 255 →
          ie.head >>> 6 = mac_pdu.mux_ext.LENGTH_8BIT) ∧
        (255 < p.length →
          ie.head >>> 6 = mac_pdu.mux_ext.LENGTH_16BIT)) := by
  intro t p
  constructor
  · unfold new_6bit_with_length
    split
    · simpa using by omega
    · simpa using by omega
  · intro ie hie
    unfold new_6bit_with_length at hie
    split at hie
    · exact absurd hie (by simp)
    · simp only [Option.some.injEq] at hie
      subst hie
      constructor
      · intro h255
        simp only [if_pos h255, LENGTH_8BIT_shift6]
        exact (or_head_8bit t.val t.isMasked).1
      · intro h255
        simp only [if_neg (by omega : ¬ p.length ≤ 255), LENGTH_16BIT_shift6]
        exact (or_head_16bit t.val t.isMasked).1

/-- Witness for `new_6bit_with_length_spec` at type 0x03, payload `[1]`. -/
theorem new_6bit_with_length_spec_witness :
    ({ head := 0x43, payload := [1] } : InformationElement).head >>> 6 =
      mac_pdu.mux_ext.LENGTH_8BIT :=
  ((new_6bit_with_length_spec ⟨0x03, by decide⟩ [1]).2
    { head := 0x43, payload := [1] } (by decide)).1 (by decide)

/-- Claim C7: for every 5-bit (short) IE type `t` and payload `p`,
`new_5bit(t, p)` returns `Ok` if and only if `p.len()` equals `t`'s
embedded length bit; on success the head byte is
`(SHORT_IE << 6) | t.composite()`. -/
theorem new_5bit_spec :
    ∀ (t : IEType5bit) (p : List Nat),
      ((new_5bit t p).isSome ↔ p.length = t.len) ∧
      (∀ ie, new_5bit t p = some ie →
        ie.head = (mac_pdu.mux_ext.SHORT_IE <<< 6) ||| t.composite ∧
        ie.payload = p) := by
  intro t p
  constructor
  · unfold new_5bit
    split
    · simpa using by tauto
    · simpa using by tauto
  · intro ie hie
    unfold new_5bit at hie
    split at hie
    · exact absurd hie (by simp)
    · simp only [Option.some.injEq] at hie
      subst hie
      exact ⟨Nat.or_comm _ _, rfl⟩

/-- Witness for `new_5bit_spec` at the length-1 type 0b100001,
payload `[0xaa]`. -/
theorem new_5bit_spec_witness :
    ({ head := 0xe1, payload := [0xaa] } : InformationElement).head =
      (mac_pdu.mux_ext.SHORT_IE <<< 6) |||
        IEType5bit.composite ⟨0b100001, by decide⟩ ∧
    ({ head := 0xe1, payload := [0xaa] } : InformationElement).payload =
      [0xaa] :=
  (new_5bit_spec ⟨0b100001, by decide⟩ [0xaa]).2
    { head := 0xe1, payload := [0xaa] } (by decide)

/-- Claim C4: every input whose head byte has MAC-ext encoding 00 (both
top bits clear) is a parse error, regardless of the IE type code and of
how many bytes follow. -/
theorem parse_no_length_field_fails :
    ∀ (head : Nat) (rest : List Nat),
      head >>> 6 = mac_pdu.mux_ext.NO_LENGTH_FIELD →
      parse (head :: rest) = none := by
  intro head rest h
  unfold parse parseLength
  rcases htf : IEType6bit.tryFrom (head &&& 0x3f) with _ | t <;>
    simp [splitOffFirst, h, htf]

/-- Witness for `parse_no_length_field_fails` at head 0x09 (Cluster
Beacon with implied length). -/
theorem parse_no_length_field_fails_witness :
    (0x09 : Nat) >>> 6 = mac_pdu.mux_ext.NO_LENGTH_FIELD ∧
    parse (0x09 :: [1, 2, 3]) = none :=
  ⟨by decide, parse_no_length_field_fails 0x09 [1, 2, 3] (by decide)⟩

/-- Claim C9: for every representable IE (in particular those returned by
`parse` and built by the constructors) the head's low 6 bits satisfy the
masked-construction precondition, so `ie_number` totally returns an
`AnyIeType` and the `expect`s guarding `IEType6bit::try_from` /
`IEType5bit::try_from_composite` (both in `ie_number` and in `parse`'s
MAC-ext-00 arm) are unreachable. -/
theorem ie_number_total :
    (∀ (h : Nat) (p : List Nat),
      (ie_number { head := h, payload := p }).isSome = true) ∧
    (∀ h : Nat, (IEType6bit.tryFrom (h &&& 0x3f)).isSome = true) ∧
    (∀ h : Nat, (IEType5bit.tryFromComposite (h &&& 0x3f)).isSome = true) := by
  have hm : ∀ h : Nat, h &&& 0x3f < 64 :=
    fun h => Nat.lt_of_le_of_lt Nat.and_le_right (by norm_num)
  refine ⟨?_, ?_, ?_⟩
  · intro h p
    unfold ie_number
    split
    · simp [IEType5bit.tryFromComposite, hm h]
    · simp [IEType6bit.tryFrom, hm h]
  · intro h
    simp [IEType6bit.tryFrom, hm h]
  · intro h
    simp [IEType5bit.tryFromComposite, hm h]

/-- Claim C1: every IE built by `new_6bit_with_length(t, p)` (with
`p.len() <= 65535`) or by `new_5bit(t, p)` (with `p.len() == t.len()`)
serializes to a buffer from which `InformationElement::parse` succeeds,
consuming the whole buffer and yielding an IE whose `ie_number()` equals
the constructed type and whose `payload()` bytes equal `p`. -/
theorem serialize_parse_roundtrip :
    (∀ (t : IEType6bit) (p : List Nat), p.length ≤ 65535 →
      ∃ ie bytes ie2,
        new_6bit_with_length t p = some ie ∧
        serialize ie = some bytes ∧
        parse bytes = some (ie2, []) ∧
        ie_number ie2 = some (AnyIeType.Type6bit t) ∧
        ie2.payload = p) ∧
    (∀ (t : IEType5bit) (p : List Nat), p.length = t.len →
      ∃ ie bytes ie2,
        new_5bit t p = some ie ∧
        serialize ie = some bytes ∧
        parse bytes = some (ie2, []) ∧
        ie_number ie2 = some (AnyIeType.Type5bit t) ∧
        ie2.payload = p) := by
  constructor
  · intro t p hp
    obtain ⟨v, hv⟩ := t
    by_cases hp8 : p.length ≤ 255
    · refine ⟨⟨v ||| 64, p⟩, (v ||| 64) :: p.length :: p, ⟨v ||| 64, p⟩,
        ?_, ?_, ?_, ?_, rfl⟩
      · unfold new_6bit_with_length
        rw [if_neg (by omega)]
        simp [if_pos hp8, LENGTH_8BIT_shift6]
      · obtain ⟨hsh, hmask, hlt⟩ := or_head_8bit v hv
        unfold serialize
        simp [hsh, hp8, mac_pdu.mux_ext.LENGTH_8BIT]
      · obtain ⟨hsh, hmask, hlt⟩ := or_head_8bit v hv
        unfold parse parseLength
        simp [splitOffFirst, splitOff, hsh, mac_pdu.mux_ext.NO_LENGTH_FIELD,
          mac_pdu.mux_ext.LENGTH_8BIT]
      · obtain ⟨hsh, hmask, hlt⟩ := or_head_8bit v hv
        unfold ie_number
        simp [hsh, hmask, IEType6bit.tryFrom, hv, mac_pdu.mux_ext.SHORT_IE]
    · refine ⟨⟨v ||| 128, p⟩,
        (v ||| 128) :: (p.length >>> 8) :: (p.length &&& 255) :: p,
        ⟨v ||| 128, p⟩, ?_, ?_, ?_, ?_, rfl⟩
      · unfold new_6bit_with_length
        rw [if_neg (by omega)]
        simp [if_neg hp8, LENGTH_16BIT_shift6]
      · obtain ⟨hsh, hmask, hlt⟩ := or_head_16bit v hv
        unfold serialize
        simp [hsh, hp, mac_pdu.mux_ext.LENGTH_8BIT, mac_pdu.mux_ext.LENGTH_16BIT]
      · obtain ⟨hsh, hmask, hlt⟩ := or_head_16bit v hv
        unfold parse parseLength
        simp [splitOffFirst, splitOff, hsh, be16_recombine,
          mac_pdu.mux_ext.NO_LENGTH_FIELD, mac_pdu.mux_ext.LENGTH_8BIT,
          mac_pdu.mux_ext.LENGTH_16BIT]
      · obtain ⟨hsh, hmask, hlt⟩ := or_head_16bit v hv
        unfold ie_number
        simp [hsh, hmask, IEType6bit.tryFrom, hv, mac_pdu.mux_ext.SHORT_IE]
  · intro t p hp
    obtain ⟨c, hc⟩ := t
    obtain ⟨hsh, hmask, hlen, hlt⟩ := or_head_short c hc
    refine ⟨⟨c ||| 192, p⟩, (c ||| 192) :: p, ⟨c ||| 192, p⟩,
      ?_, ?_, ?_, ?_, rfl⟩
    · unfold new_5bit
      rw [if_neg (by simpa [IEType5bit.len] using hp)]
      simp [IEType5bit.composite, SHORT_IE_shift6]
    · unfold serialize
      simp [hsh, mac_pdu.mux_ext.LENGTH_8BIT, mac_pdu.mux_ext.LENGTH_16BIT]
    · unfold parse parseLength
      simp only [IEType5bit.len] at hp
      have hlen2 : ((c ||| 192) >>> 5) % 2 = c >>> 5 := by simpa using hlen
      simp [splitOffFirst, splitOff, hsh, hlen2, ← hp,
        mac_pdu.mux_ext.NO_LENGTH_FIELD, mac_pdu.mux_ext.LENGTH_8BIT,
        mac_pdu.mux_ext.LENGTH_16BIT, mac_pdu.mux_ext.SHORT_IE]
    · unfold ie_number
      simp [hsh, hmask, IEType5bit.tryFromComposite, hc,
        mac_pdu.mux_ext.SHORT_IE]

/-- Witness for `serialize_parse_roundtrip`: both constructors at a
concrete type and payload. -/
theorem serialize_parse_roundtrip_witness :
    (∃ ie bytes ie2,
      new_6bit_with_length ⟨0x03, by decide⟩ [0x10, 0, 0] = some ie ∧
      serialize ie = some bytes ∧
      parse bytes = some (ie2, []) ∧
      ie_number ie2 = some (AnyIeType.Type6bit ⟨0x03, by decide⟩) ∧
      ie2.payload = [0x10, 0, 0]) ∧
    (∃ ie bytes ie2,
      new_5bit ⟨0b100001, by decide⟩ [0xaa] = some ie ∧
      serialize ie = some bytes ∧
      parse bytes = some (ie2, []) ∧
      ie_number ie2 = some (AnyIeType.Type5bit ⟨0b100001, by decide⟩) ∧
      ie2.payload = [0xaa]) :=
  ⟨serialize_parse_roundtrip.1 ⟨0x03, by decide⟩ [0x10, 0, 0] (by decide),
   serialize_parse_roundtrip.2 ⟨0b100001, by decide⟩ [0xaa] (by decide)⟩

/-- Claim C10: parsing is a left inverse of serialization on wire bytes:
whenever `parse` succeeds on a byte slice after consuming `k` bytes,
serializing the resulting IE writes back exactly those `k` bytes (so an
IE parsed from the 16-bit length encoding re-serializes with the 16-bit
length field even when its payload would fit the 8-bit form, because
`serialize` dispatches on the stored head). -/
theorem parse_serialize_exact :
    ∀ (data : List Nat) (ie : InformationElement) (rest : List Nat),
      (∀ b ∈ data, b < 256) →
      parse data = some (ie, rest) →
      ∃ bytes, serialize ie = some bytes ∧ data = bytes ++ rest := by
  intro data ie rest hbytes hp
  rcases data with _ | ⟨head, d1⟩
  · simp [parse, splitOffFirst] at hp
  · have hhead : head < 256 := hbytes head (by simp)
    rw [parse] at hp
    simp only [splitOffFirst, Option.bind_eq_bind, Option.some_bind,
      Option.bind_eq_some, Option.pure_def, Option.some.injEq,
      Prod.mk.injEq] at hp
    obtain ⟨⟨len, d2⟩, h1, ⟨⟨payload, d3⟩, h2, h3, h4⟩⟩ := hp
    dsimp only at h1 h2 h3 h4
    unfold splitOff at h2
    split at h2
    case isFalse => exact Option.noConfusion h2
    case isTrue hlen_le =>
    simp only [Option.some.injEq, Prod.mk.injEq] at h2
    obtain ⟨hpay, hd3⟩ := h2
    have hplen : payload.length = len := by
      rw [← hpay, List.length_take]
      omega
    unfold parseLength at h1
    split_ifs at h1 with e0 e1 e2 e3
    · rcases htf : IEType6bit.tryFrom (head &&& 0x3f) with _ | t <;>
        rw [htf] at h1 <;> exact Option.noConfusion h1
    · -- LENGTH_8BIT: one length byte was consumed
      rcases d1 with _ | ⟨b, d⟩
      · exact Option.noConfusion h1
      · simp only [splitOffFirst, Option.some.injEq, Prod.mk.injEq] at h1
        obtain ⟨hb, hd⟩ := h1
        have hb256 : b < 256 := hbytes b (by simp)
        have hlen255 : len ≤ 255 := by omega
        refine ⟨head :: payload.length :: payload, ?_, ?_⟩
        · unfold serialize
          rw [← h3]
          simp [e1, hplen, hlen255]
        · simp only [List.cons_append]
          rw [hplen, hb, hd, ← h4, ← hd3, ← hpay, List.take_append_drop]
    · -- LENGTH_16BIT: two length bytes were consumed
      rcases d1 with _ | ⟨hi, d⟩
      · exact Option.noConfusion h1
      · rcases d with _ | ⟨lo, d⟩
        · simp [splitOffFirst] at h1
        · simp only [splitOffFirst, Option.some.injEq, Prod.mk.injEq] at h1
          obtain ⟨hlen16, hd⟩ := h1
          have hhi : hi < 256 := hbytes hi (by simp)
          have hlo : lo < 256 := hbytes lo (by simp)
          obtain ⟨hsplit1, hsplit2, hle⟩ := be16_split hi hhi lo hlo
          have hlen65535 : len ≤ 65535 := hlen16 ▸ hle
          refine ⟨head :: (payload.length >>> 8) ::
            (payload.length &&& 255) :: payload, ?_, ?_⟩
          · unfold serialize
            rw [← h3]
            simp [e2, mac_pdu.mux_ext.LENGTH_8BIT,
              mac_pdu.mux_ext.LENGTH_16BIT, hplen, hlen65535]
          · simp only [List.cons_append]
            rw [hplen, ← hlen16, hsplit1, hsplit2, hd, ← h4, ← hd3, ← hpay,
              List.take_append_drop]
    · -- SHORT_IE: no length bytes
      simp only [Option.some.injEq, Prod.mk.injEq] at h1
      obtain ⟨hlenval, hd⟩ := h1
      refine ⟨head :: payload, ?_, ?_⟩
      · unfold serialize
        rw [← h3]
        simp [e3, mac_pdu.mux_ext.LENGTH_8BIT, mac_pdu.mux_ext.LENGTH_16BIT,
          mac_pdu.mux_ext.SHORT_IE]
      · simp only [List.cons_append]
        rw [hd, ← h4, ← hd3, ← hpay, List.take_append_drop]

/-- Witness for `parse_serialize_exact`: a 16-bit-length IE with a
1-byte payload re-serializes to exactly its wire bytes. -/
theorem parse_serialize_exact_witness :
    ∃ bytes,
      serialize { head := 0x83, payload := [42] } = some bytes ∧
      [0x83, 0, 1, 42] = bytes ++ [] :=
  parse_serialize_exact [0x83, 0, 1, 42] { head := 0x83, payload := [42] } []
    (by decide) (by decide)

/-- The stream stops immediately on an empty slice. -/
theorem parse_stream_nil : parse_stream [] = [] := by
  rw [parse_stream]
  simp

/-- The stream yields at most one item per input byte. -/
theorem parse_stream_length_le_of_le :
    ∀ (n : Nat) (data : List Nat), data.length ≤ n →
      (parse_stream data).length ≤ data.length := by
  intro n
  induction n with
  | zero =>
    intro data h
    have hnil : data = [] := List.eq_nil_of_length_eq_zero (by omega)
    subst hnil
    rw [parse_stream_nil]
    exact Nat.le_refl _
  | succ n ih =>
    intro data h
    rw [parse_stream]
    split
    · simp
    · split
      case _ ie rest hp =>
        have hlt := parse_rest_length_lt data ie rest hp
        have hr := ih rest (by omega)
        simp only [List.length_cons]
        omega
      case _ hne _ =>
        rcases data with _ | ⟨x, xs⟩
        · exact absurd rfl hne
        · simp

/-- Every element of the stream except possibly the last is `ok`. -/
theorem parse_stream_dropLast_ok_of_le :
    ∀ (n : Nat) (data : List Nat), data.length ≤ n →
      ∀ x ∈ (parse_stream data).dropLast, ∃ ie, x = Except.ok ie := by
  intro n
  induction n with
  | zero =>
    intro data h x hx
    have hnil : data = [] := List.eq_nil_of_length_eq_zero (by omega)
    subst hnil
    rw [parse_stream_nil] at hx
    simp at hx
  | succ n ih =>
    intro data h x hx
    rw [parse_stream] at hx
    split at hx
    · simp at hx
    · split at hx
      case _ ie rest hp =>
        rcases hs : parse_stream rest with _ | ⟨y, ys⟩
        · rw [hs] at hx
          simp at hx
        · rw [hs] at hx
          simp only [List.dropLast_cons₂, List.mem_cons] at hx
          rcases hx with rfl | hx2
          · exact ⟨ie, rfl⟩
          · have hlt := parse_rest_length_lt data ie rest hp
            exact ih rest (by omega) x (by rw [hs]; exact hx2)
      case _ =>
        simp at hx

/-- Claim C5: the iterator `parse_stream` returns is finite: it yields no
item once the remaining slice is empty; it yields at most one item per
input byte; on the first parse failure it yields that single `Err` item,
after which every subsequent `next()` returns none — equivalently, in the
list of all items yielded, every element before the last is `Ok`. -/
theorem parse_stream_spec :
    (parse_stream [] = []) ∧
    (∀ data : List Nat, (parse_stream data).length ≤ data.length) ∧
    (∀ data : List Nat, data ≠ [] → parse data = none →
      parse_stream data = [Except.error ()]) ∧
    (∀ (data : List Nat) (x : Except Unit InformationElement),
      x ∈ (parse_stream data).dropLast → ∃ ie, x = Except.ok ie) := by
  refine ⟨parse_stream_nil,
    fun data => parse_stream_length_le_of_le data.length data (Nat.le_refl _),
    ?_,
    fun data x hx =>
      parse_stream_dropLast_ok_of_le data.length data (Nat.le_refl _) x hx⟩
  intro data hne hp
  rw [parse_stream, dif_neg hne]
  split
  case _ ie rest hpp => rw [hp] at hpp; exact Option.noConfusion hpp
  case _ => rfl

/-- Witness for `parse_stream_spec`: a failing head yields exactly one
error item, and in a stream with a trailing error the earlier item is
`Ok`. -/
theorem parse_stream_spec_witness :
    parse_stream [0x09] = [Except.error ()] ∧
    (∃ ie, (Except.ok { head := 0xc0, payload := [] } :
        Except Unit InformationElement) = Except.ok ie) := by
  have e1 : parse ([0xc0, 0x40] : List Nat) =
      some ({ head := 0xc0, payload := [] }, [0x40]) := by decide
  have e2 : parse ([0x40] : List Nat) = none := by decide
  have e3 : parse_stream ([0x40] : List Nat) = [Except.error ()] :=
    parse_stream_spec.2.2.1 [0x40] (by decide) e2
  refine ⟨parse_stream_spec.2.2.1 [0x09] (by decide) (by decide), ?_⟩
  refine parse_stream_spec.2.2.2 [0xc0, 0x40] _ ?_
  rw [parse_stream, dif_neg (by decide)]
  split
  case _ ie rest hpp =>
    rw [e1] at hpp
    simp only [Option.some.injEq, Prod.mk.injEq] at hpp
    obtain ⟨hie, hrest⟩ := hpp
    rw [← hie, ← hrest]  
    rw [e3]
    simp
  case _ hpp =>
    rw [e1] at hpp
    exact Option.noConfusion hpp

end mac_ie.InformationElement

namespace mac_pdu

/-- The fixed common-subheader width selected by each accepted MAC Header
Type value (2, 7, 10 and 6 bytes for types 0x0-0x3). -/
def subheaderWidth (t : Nat) : Nat :=
  if t = header_type.DATA_MAC_PDU then 2
  else if t = header_type.BEACON then 7
  else if t = header_type.UNICAST then 10
  else if t = header_type.RD_BROADCAST then 6
  else 0

/-- The common-subheader variant each accepted MAC Header Type value is
parsed into. -/
def mkCommon (t : Nat) (bytes : List Nat) : MacCommonHeader :=
  if t = header_type.DATA_MAC_PDU then .DataMacPdu bytes
  else if t = header_type.BEACON then .Beacon bytes
  else if t = header_type.UNICAST then .Unicast bytes
  else .RdBroadcast bytes

/-- Closed-form evaluation of `Header::parse` on a nonempty buffer. -/
theorem header_parse_eq (b : Nat) (rest : List Nat) :
    Header.parse (b :: rest) =
      if b >>> 6 = 0 ∧ b &&& 0xf < 4 ∧
          subheaderWidth (b &&& 0xf) ≤ rest.length then
        some { head := ⟨b⟩,
               common := mkCommon (b &&& 0xf)
                 (rest.take (subheaderWidth (b &&& 0xf))),
               tail := rest.drop (subheaderWidth (b &&& 0xf)) }
      else none := by
  unfold Header.parse
  simp only [splitOffFirst, Option.bind_eq_bind, Option.some_bind,
    MacHeaderType.version, MacHeaderType.mac_header_type, VERSION,
    header_type.DATA_MAC_PDU, header_type.BEACON, header_type.UNICAST,
    header_type.RD_BROADCAST]
  by_cases hv : b >>> 6 = 0
  · simp only [hv, ite_not, if_pos rfl, if_true, not_true_eq_false,
      if_neg (by omega : ¬ (0 : Nat) ≠ 0)]
    by_cases h0 : b &&& 0xf = 0
    · by_cases hr : 2 ≤ rest.length <;>
        simp [h0, hr, hv, splitOff, subheaderWidth, mkCommon,
          header_type.DATA_MAC_PDU, header_type.BEACON,
          header_type.UNICAST, header_type.RD_BROADCAST]
    · by_cases h1 : b &&& 0xf = 1
      · by_cases hr : 7 ≤ rest.length <;>
          simp [h0, h1, hr, hv, splitOff, subheaderWidth, mkCommon,
            header_type.DATA_MAC_PDU, header_type.BEACON,
            header_type.UNICAST, header_type.RD_BROADCAST]
      · by_cases h2 : b &&& 0xf = 2
        · by_cases hr : 10 ≤ rest.length <;>
            simp [h0, h1, h2, hr, hv, splitOff, subheaderWidth, mkCommon,
              header_type.DATA_MAC_PDU, header_type.BEACON,
              header_type.UNICAST, header_type.RD_BROADCAST]
        · by_cases h3 : b &&& 0xf = 3
          · by_cases hr : 6 ≤ rest.length <;>
              simp [h0, h1, h2, h3, hr, hv, splitOff, subheaderWidth,
                mkCommon, header_type.DATA_MAC_PDU, header_type.BEACON,
                header_type.UNICAST, header_type.RD_BROADCAST]
          · have h4 : ¬ (b &&& 0xf < 4) := by omega
            simp [h0, h1, h2, h3, hv, h4]
  · simp [hv]

/-- Claim C3: `Header::parse(s)` succeeds iff `s` is nonempty, the top 2
bits of `s[0]` are zero (version 0), the low 4 bits of `s[0]` are one of
0x0 (DataMacPdu, width 2), 0x1 (Beacon, width 7), 0x2 (Unicast, width
10), 0x3 (RdBroadcast, width 6) — any other value, 0xf ESCAPE included,
is a parse error — and `s.len() >= 1 + w`; on success the subheader is
`s[1..1+w]` and the tail is exactly `s[1+w..]`. -/
theorem header_parse_spec :
    (Header.parse [] = none) ∧
    (∀ (b : Nat) (rest : List Nat),
      (Header.parse (b :: rest)).isSome ↔
        (b >>> 6 = 0 ∧ b &&& 0xf < 4 ∧
          subheaderWidth (b &&& 0xf) ≤ rest.length)) ∧
    (∀ (b : Nat) (rest : List Nat) (hdr : Header),
      Header.parse (b :: rest) = some hdr →
        hdr.head = ⟨b⟩ ∧
        hdr.common.headerTypeValue = b &&& 0xf ∧
        hdr.common.bytes = rest.take (subheaderWidth (b &&& 0xf)) ∧
        hdr.tail = rest.drop (subheaderWidth (b &&& 0xf))) := by
  refine ⟨rfl, ?_, ?_⟩
  · intro b rest
    rw [header_parse_eq]
    split
    case isTrue h => simp [h]
    case isFalse h => simp [h]
  · intro b rest hdr hp
    rw [header_parse_eq] at hp
    split at hp
    case isFalse => exact Option.noConfusion hp
    case isTrue hcond =>
    obtain ⟨hv, h4, hw⟩ := hcond
    simp only [Option.some.injEq] at hp
    subst hp
    refine ⟨rfl, ?_, ?_, rfl⟩
    · unfold mkCommon MacCommonHeader.headerTypeValue
      unfold subheaderWidth at hw
      split_ifs with h0 h1 h2 <;>
        simp_all [header_type.DATA_MAC_PDU, header_type.BEACON,
          header_type.UNICAST, header_type.RD_BROADCAST]
      omega
    · unfold mkCommon MacCommonHeader.bytes
      split_ifs <;> rfl

/-- Witness for `header_parse_spec` on the beacon test vector of the
source tree. -/
theorem header_parse_spec_witness :
    ∃ hdr, Header.parse [1, 18, 52, 86, 0, 0, 0, 38, 73, 5] = some hdr ∧
      hdr.head = ⟨1⟩ ∧
      hdr.common.headerTypeValue = 1 &&& 0xf ∧
      hdr.common.bytes =
        [18, 52, 86, 0, 0, 0, 38, 73, 5].take (subheaderWidth (1 &&& 0xf)) ∧
      hdr.tail =
        [18, 52, 86, 0, 0, 0, 38, 73, 5].drop (subheaderWidth (1 &&& 0xf)) := by
  refine ⟨Header.mk ⟨1⟩ (MacCommonHeader.Beacon [18, 52, 86, 0, 0, 0, 38])
    [73, 5], ?_, ?_⟩
  · rw [header_parse_eq]
    simp [subheaderWidth, mkCommon, header_type.DATA_MAC_PDU,
      header_type.BEACON]
  · exact header_parse_spec.2.2 1 [18, 52, 86, 0, 0, 0, 38, 73, 5] _
      (by rw [header_parse_eq]; simp [subheaderWidth, mkCommon,
        header_type.DATA_MAC_PDU, header_type.BEACON])

end mac_pdu

namespace nrfxlib_phy

/-- Claim C2: for every event sequence one `rx()` call consumes that ends
with `Completed(Ok)`, the result is determined by the collected
`(pcc, pdc)` pair: `(absent, absent)` is `None`; `(PccError e, absent)`
is `Some` with indices `Err(e)`; `(Pcc(t, n), absent)` is `Some` with
`pcc_time` `t`, `pcc_len` `n` and `pdc_len` `Err(NotReceived)`;
`(Pcc(t, n), Pdc/PdcError)` is `Some` with the PDC length or `CrcError`;
`(absent, present)` is fatal.  The first conjunct ties the loop to the
assembly; the middle conjuncts are the table; the last conjuncts give the
collection steps and a concrete end-to-end run. -/
theorem rx_assembly_spec :
    (∀ events pcc pdc,
      rxLoop (DectEvent.Completed (Except.ok ()) :: events) pcc pdc =
        rxAssemble pcc pdc) ∧
    (rxAssemble none none = RxOutcome.silence) ∧
    (∀ e, rxAssemble (some (Except.error e)) none =
      RxOutcome.received (Except.error e)) ∧
    (∀ t n, rxAssemble (some (Except.ok (t, n))) none =
      RxOutcome.received (Except.ok
        { pcc_time := t, pcc_len := n,
          pdc_len := Except.error PdcError.NotReceived })) ∧
    (∀ t n r, rxAssemble (some (Except.ok (t, n))) (some r) =
      RxOutcome.received (Except.ok
        { pcc_time := t, pcc_len := n, pdc_len := r })) ∧
    (∀ r, rxAssemble none (some r) = RxOutcome.fatal) ∧
    (∀ events pdc t n, rxLoop (DectEvent.Pcc t n :: events) none pdc =
      rxLoop events (some (Except.ok (t, n))) pdc) ∧
    (∀ events pdc e, rxLoop (DectEvent.PccError e :: events) none pdc =
      rxLoop events (some (Except.error e)) pdc) ∧
    (∀ events pcc len, rxLoop (DectEvent.Pdc len :: events) pcc none =
      rxLoop events pcc (some (Except.ok len))) ∧
    (∀ events pcc, rxLoop (DectEvent.PdcError :: events) pcc none =
      rxLoop events pcc (some (Except.error PdcError.CrcError))) ∧
    (∀ t, rx [DectEvent.Pcc t 5, DectEvent.Pdc 33,
        DectEvent.Completed (Except.ok ())] =
      RxOutcome.received (Except.ok
        { pcc_time := t, pcc_len := 5, pdc_len := Except.ok 33 })) := by
  refine ⟨fun _ _ _ => rfl, rfl, fun _ => rfl, fun _ _ => rfl,
    fun _ _ _ => rfl, fun _ => rfl, fun _ _ _ _ => rfl, fun _ _ _ => rfl,
    fun _ _ _ => rfl, fun _ _ => rfl, fun _ => rfl⟩

/-- Claim C8: `tx` with a valid PCC length (5 or 10 bytes) and
`network_id == 0` returns the driver usage error without issuing the
modem transmit request, and with any nonzero `network_id` this check
raises no usage error. -/
theorem tx_zero_network_id_spec :
    ∀ (st ch nid : Nat) (pcc pdc : List Nat),
      pcc.length = 5 ∨ pcc.length = 10 →
      (nid = 0 → txValidate st ch nid pcc pdc = TxOutcome.usageError) ∧
      (nid ≠ 0 → txValidate st ch nid pcc pdc ≠ TxOutcome.usageError) := by
  intro st ch nid pcc pdc hlen
  unfold txValidate
  rcases hlen with h5 | h10
  · rw [if_pos h5]
    exact ⟨fun h0 => by simp [h0], fun h0 => by simp [h0]⟩
  · rw [if_neg (by omega), if_pos h10]
    exact ⟨fun h0 => by simp [h0], fun h0 => by simp [h0]⟩

/-- Witness for `tx_zero_network_id_spec`: a 5-byte PCC with zero network
id is rejected as a usage error. -/
theorem tx_zero_network_id_spec_witness :
    txValidate 0 1665 0 [1, 2, 3, 4, 5] [9] = TxOutcome.usageError :=
  (tx_zero_network_id_spec 0 1665 0 [1, 2, 3, 4, 5] [9]
    (Or.inl (by decide))).1 rfl

end nrfxlib_phy

end Hophop
